import Mathlib

/-!
Shallow embedding of the buffered event queue from
`crates/bevy_ecs/src/event/collections.rs` (the `Events<E>` double-buffered
event collection), together with proofs of the specified properties.

Rust `usize` ordinals are modelled as `Nat`: `event_count` only ever
increases by one per written event, and the claims under study are about its
monotone-growth regime. `MaybeLocation` (diagnostic source-location
provenance) and the `PhantomData` type marker are omitted from `EventId`:
they carry no behavioral content for these properties.
-/

namespace BevyEvents

/-- An event id: the globally unique ordinal assigned at write time.
Mirrors `EventId { id: usize, caller, _marker }` with the diagnostic
`caller` field and phantom marker dropped. -/
structure EventId where
  id : Nat
  deriving DecidableEq, Repr

/-- Mirrors `EventInstance<E> { event_id, event }`. -/
structure EventInstance (E : Type) where
  event_id : EventId
  event : E
  deriving DecidableEq, Repr

/-- Mirrors `EventSequence<E> { events: Vec<EventInstance<E>>, start_event_count: usize }`. -/
structure EventSequence (E : Type) where
  events : List (EventInstance E)
  start_event_count : Nat
  deriving DecidableEq, Repr

/-- `EventSequence::len` (via `Deref` to the `Vec`). -/
def EventSequence.len {E : Type} (g : EventSequence E) : Nat :=
  g.events.length

/-- Mirrors `Events<E> { events_a, events_b, event_count }`:
`events_a` holds the oldest still-active events, `events_b` the newer ones. -/
structure Events (E : Type) where
  events_a : EventSequence E
  events_b : EventSequence E
  event_count : Nat
  deriving DecidableEq, Repr

namespace Events

variable {E : Type}

/-- `Events::default()`: both generations empty with `start_event_count = 0`,
`event_count = 0`. -/
def empty : Events E :=
  { events_a := ⟨[], 0⟩, events_b := ⟨[], 0⟩, event_count := 0 }

/-- `Events::oldest_event_count`. -/
def oldest_event_count (s : Events E) : Nat :=
  s.events_a.start_event_count

/-- `Events::write` (through `write_with_caller`): build an `EventId` from the
current `event_count`, push the instance onto `events_b`, increment the
counter, return the id. -/
def write (s : Events E) (event : E) : Events E × EventId :=
  let event_id : EventId := ⟨s.event_count⟩
  ({ s with
      events_b := ⟨s.events_b.events ++ [⟨event_id, event⟩], s.events_b.start_event_count⟩,
      event_count := s.event_count + 1 },
   event_id)

/-- The instances produced by the mapping closure in `Extend<E> for Events<E>`:
each event is paired with the running counter, which increments per item. -/
def extendInstances (count : Nat) : List E → List (EventInstance E)
  | [] => []
  | e :: rest => ⟨⟨count⟩, e⟩ :: extendInstances (count + 1) rest

/-- `<Events<E> as Extend<E>>::extend`: append the counted instances to
`events_b` and set `event_count` to the final counter value. -/
def extendEvents (s : Events E) (es : List E) : Events E :=
  { s with
      events_b := ⟨s.events_b.events ++ extendInstances s.event_count es,
                   s.events_b.start_event_count⟩,
      event_count := s.event_count + es.length }

/-- Mirrors `WriteBatchIds<E> { last_count, event_count, _marker }`
(phantom marker dropped). -/
structure WriteBatchIds where
  last_count : Nat
  event_count : Nat
  deriving DecidableEq, Repr

/-- `Events::write_batch`: record the pre-call counter, extend, and return the
lazy id ticket. -/
def write_batch (s : Events E) (es : List E) : Events E × WriteBatchIds :=
  let last_count := s.event_count
  let s' := extendEvents s es
  (s', ⟨last_count, s'.event_count⟩)

/-- `Events::update`: swap the buffers, clear the (post-swap) `events_b`, and
set its `start_event_count` to the current `event_count`. -/
def update (s : Events E) : Events E :=
  { events_a := s.events_b
    events_b := ⟨[], s.event_count⟩
    event_count := s.event_count }

/-- `Events::update_drain`: like `update`, but the drained contents of the
discarded generation (the pre-call `events_a`) are returned as payloads, in
stored order. -/
def update_drain (s : Events E) : Events E × List E :=
  ({ events_a := s.events_b
     events_b := ⟨[], s.event_count⟩
     event_count := s.event_count },
   s.events_a.events.map EventInstance.event)

/-- `Events::clear`: reset both generations' `start_event_count` to
`event_count`, then empty both vectors. -/
def clear (s : Events E) : Events E :=
  { events_a := ⟨[], s.event_count⟩
    events_b := ⟨[], s.event_count⟩
    event_count := s.event_count }

/-- `Events::drain`: empty both generations (oldest first, then newest),
returning their payloads, and reset start counts like `clear`. -/
def drain (s : Events E) : Events E × List E :=
  ({ events_a := ⟨[], s.event_count⟩
     events_b := ⟨[], s.event_count⟩
     event_count := s.event_count },
   (s.events_a.events ++ s.events_b.events).map EventInstance.event)

/-- `Events::len`: sum of both generations' lengths. -/
def len (s : Events E) : Nat :=
  s.events_a.len + s.events_b.len

/-- `Events::is_empty`. -/
def is_empty (s : Events E) : Bool :=
  s.len == 0

/-- `Events::iter_current_update_events`: the newer generation's payloads. -/
def iter_current_update_events (s : Events E) : List E :=
  s.events_b.events.map EventInstance.event

/-- `Events::sequence`: which buffer owns a given ordinal. -/
def sequence (s : Events E) (id : Nat) : EventSequence E :=
  if id < s.events_b.start_event_count then s.events_a else s.events_b

/-- `Events::get_event`: point lookup by global ordinal. `saturating_sub` on
`usize` is `Nat` subtraction. -/
def get_event (s : Events E) (id : Nat) : Option (E × EventId) :=
  if id < s.oldest_event_count then
    none
  else
    let seq := s.sequence id
    let index := id - seq.start_event_count
    (seq.events[index]?).map fun inst => (inst.event, inst.event_id)

end Events

/-- `<WriteBatchIds<E> as Iterator>::next`: yield ids while
`last_count < event_count`, advancing `last_count`. -/
def Events.WriteBatchIds.next (w : Events.WriteBatchIds) :
    Option (EventId × Events.WriteBatchIds) :=
  if w.event_count ≤ w.last_count then
    none
  else
    some (⟨w.last_count⟩, ⟨w.last_count + 1, w.event_count⟩)

/-- `<WriteBatchIds<E> as ExactSizeIterator>::len`: `event_count.saturating_sub(last_count)`. -/
def Events.WriteBatchIds.len (w : Events.WriteBatchIds) : Nat :=
  w.event_count - w.last_count

/-- The full sequence of ids the `WriteBatchIds` iterator yields, obtained by
running `next` to exhaustion. -/
def Events.WriteBatchIds.toList (w : Events.WriteBatchIds) : List EventId :=
  if w.event_count ≤ w.last_count then
    []
  else
    ⟨w.last_count⟩ :: Events.WriteBatchIds.toList ⟨w.last_count + 1, w.event_count⟩
termination_by w.event_count - w.last_count
decreasing_by omega

/-- Modelled from the spec: the `EventCursor<E>` type is not part of the
sources under study (only its uses are); per §4.2 it owns a single scalar
`last_event_count`, the ordinal immediately after the last event this cursor
has yielded. -/
structure EventCursor where
  last_event_count : Nat
  deriving DecidableEq, Repr

/-- Modelled from the spec: `EventCursor::read` yields, in ascending ordinal
order (older generation's surviving tail, then all of the newer generation),
the records whose ordinal is at least
`max last_event_count (buffer.oldest_event_count)`, and advances
`last_event_count` to `buffer.event_count`. -/
def EventCursor.read {E : Type} (c : EventCursor) (s : Events E) :
    EventCursor × List (EventInstance E) :=
  let lo := max c.last_event_count s.oldest_event_count
  (⟨s.event_count⟩,
   (s.events_a.events ++ s.events_b.events).filter fun inst =>
     decide (lo ≤ inst.event_id.id))

end BevyEvents

namespace BevyEvents

/-- The states reachable from `Events::default()` by the public operations. -/
inductive Reachable {E : Type} : Events E → Prop
  | empty : Reachable Events.empty
  | write (s : Events E) (e : E) : Reachable s → Reachable (s.write e).1
  | write_batch (s : Events E) (es : List E) : Reachable s → Reachable (s.write_batch es).1
  | update (s : Events E) : Reachable s → Reachable s.update
  | update_drain (s : Events E) : Reachable s → Reachable (s.update_drain).1
  | clear (s : Events E) : Reachable s → Reachable s.clear
  | drain (s : Events E) : Reachable s → Reachable (s.drain).1

/-- A generation is well formed when its stored ids are exactly the
consecutive ordinals starting at its `start_event_count`. -/
def SeqWF {E : Type} (g : EventSequence E) : Prop :=
  g.events.map (fun inst => inst.event_id.id) =
    List.range' g.start_event_count g.events.length

/-- The buffer invariant: both generations well formed, contiguous
(`a.start + a.len = b.start`), and the counter at the end of the newer
generation (`b.start + b.len = event_count`). -/
def WF {E : Type} (s : Events E) : Prop :=
  SeqWF s.events_a ∧ SeqWF s.events_b ∧
  s.events_a.start_event_count + s.events_a.len = s.events_b.start_event_count ∧
  s.events_b.start_event_count + s.events_b.len = s.event_count

theorem extendInstances_ids {E : Type} (count : Nat) (es : List E) :
    (Events.extendInstances count es).map (fun inst => inst.event_id.id) =
      List.range' count es.length := by
  induction es generalizing count with
  | nil => simp [Events.extendInstances]
  | cons e rest ih => simp [Events.extendInstances, ih, List.range'_succ]

theorem extendInstances_length {E : Type} (count : Nat) (es : List E) :
    (Events.extendInstances count es).length = es.length := by
  induction es generalizing count with
  | nil => rfl
  | cons e rest ih => simp [Events.extendInstances, ih]

theorem wf_empty {E : Type} : WF (Events.empty : Events E) := by
  refine ⟨?_, ?_, ?_, ?_⟩ <;> simp [Events.empty, SeqWF, EventSequence.len]

theorem wf_write {E : Type} {s : Events E} (h : WF s) (e : E) : WF (s.write e).1 := by
  obtain ⟨ha, hb, hab, hbc⟩ := h
  refine ⟨ha, ?_, ?_, ?_⟩
  · show SeqWF ⟨s.events_b.events ++ [⟨⟨s.event_count⟩, e⟩], s.events_b.start_event_count⟩
    unfold SeqWF at hb ⊢
    simp only [List.map_append, List.length_append, List.map_cons, List.map_nil,
      List.length_cons, List.length_nil] at *
    rw [hb]
    have hcount : s.event_count = s.events_b.start_event_count + s.events_b.events.length := by
      have := hbc
      unfold EventSequence.len at this
      omega
    rw [hcount, List.range'_concat, Nat.one_mul]
  · exact hab
  · show s.events_b.start_event_count + (s.events_b.events ++ [(⟨⟨s.event_count⟩, e⟩ : EventInstance E)]).length = s.event_count + 1
    unfold EventSequence.len at hbc
    simp only [List.length_append, List.length_cons, List.length_nil]
    omega

theorem wf_extend {E : Type} {s : Events E} (h : WF s) (es : List E) :
    WF (s.extendEvents es) := by
  obtain ⟨ha, hb, hab, hbc⟩ := h
  refine ⟨ha, ?_, ?_, ?_⟩
  · show SeqWF ⟨s.events_b.events ++ Events.extendInstances s.event_count es,
      s.events_b.start_event_count⟩
    unfold SeqWF at hb ⊢
    simp only [List.map_append, List.length_append]
    rw [hb, extendInstances_ids, extendInstances_length]
    have hcount : s.event_count = s.events_b.start_event_count + s.events_b.events.length := by
      unfold EventSequence.len at hbc; omega
    have hone : s.event_count =
        s.events_b.start_event_count + 1 * s.events_b.events.length := by
      omega
    rw [hone, List.range'_append, Nat.add_comm]
  · exact hab
  · show s.events_b.start_event_count +
      (s.events_b.events ++ Events.extendInstances s.event_count es).length =
      s.event_count + es.length
    unfold EventSequence.len at hbc
    simp only [List.length_append, extendInstances_length]
    omega

theorem wf_update {E : Type} {s : Events E} (h : WF s) : WF s.update := by
  obtain ⟨ha, hb, hab, hbc⟩ := h
  exact ⟨hb, by simp [SeqWF, Events.update], by
    simpa [Events.update, EventSequence.len] using hbc, by
    simp [Events.update, EventSequence.len]⟩

theorem wf_clear {E : Type} (s : Events E) : WF s.clear := by
  exact ⟨by simp [SeqWF, Events.clear], by simp [SeqWF, Events.clear],
    by simp [Events.clear, EventSequence.len], by simp [Events.clear, EventSequence.len]⟩

theorem reachable_wf {E : Type} {s : Events E} (h : Reachable s) : WF s := by
  induction h with
  | empty => exact wf_empty
  | write s e _ ih => exact wf_write ih e
  | write_batch s es _ ih => exact wf_extend ih es
  | update s _ ih => exact wf_update ih
  | update_drain s _ ih =>
      obtain ⟨ha, hb, hab, hbc⟩ := ih
      exact ⟨hb, by simp [SeqWF, Events.update_drain], by
        simpa [Events.update_drain, EventSequence.len] using hbc, by
        simp [Events.update_drain, EventSequence.len]⟩
  | clear s _ ih => exact wf_clear s
  | drain s _ ih =>
      exact ⟨by simp [SeqWF, Events.drain], by simp [SeqWF, Events.drain],
        by simp [Events.drain, EventSequence.len], by simp [Events.drain, EventSequence.len]⟩

end BevyEvents

namespace BevyEvents

/-- Repeated single `write` calls: the reference loop that `write_batch` is
specified to be equivalent to. Returns the final state and the list of
assigned ids in write order. -/
def writeList {E : Type} (s : Events E) : List E → Events E × List EventId
  | [] => (s, [])
  | e :: rest =>
    let p := s.write e
    let q := writeList p.1 rest
    (q.1, p.2 :: q.2)

theorem writeList_state {E : Type} (s : Events E) (es : List E) :
    (writeList s es).1 = s.extendEvents es := by
  induction es generalizing s with
  | nil => simp [writeList, Events.extendEvents, Events.extendInstances]
  | cons e rest ih =>
      simp only [writeList, ih, Events.write, Events.extendEvents, Events.extendInstances]
      refine congrArg₂ (fun gb c => Events.mk s.events_a gb c) ?_
        (by simp only [List.length_cons]; omega)
      simp [List.append_assoc]

theorem writeList_ids {E : Type} (s : Events E) (es : List E) :
    (writeList s es).2 = (List.range' s.event_count es.length).map EventId.mk := by
  induction es generalizing s with
  | nil => simp [writeList]
  | cons e rest ih =>
      simp [writeList, Events.write, ih, List.range'_succ]

theorem writeList_count {E : Type} (s : Events E) (es : List E) :
    (writeList s es).1.event_count = s.event_count + es.length := by
  rw [writeList_state]; rfl

theorem toList_mk_add {k n : Nat} :
    (Events.WriteBatchIds.mk k (k + n)).toList = (List.range' k n).map EventId.mk := by
  induction n generalizing k with
  | zero => rw [Events.WriteBatchIds.toList]; simp
  | succ n ih =>
      rw [Events.WriteBatchIds.toList]
      have hlt : ¬ (k + (n + 1) ≤ k) := by omega
      rw [if_neg hlt, List.range'_succ]
      have hshift : k + (n + 1) = (k + 1) + n := by omega
      simp only [List.map_cons]
      rw [hshift, ih]

theorem seqWF_getElem {E : Type} {g : EventSequence E} (hg : SeqWF g) (i : Nat)
    (h : i < g.events.length) :
    (g.events.get ⟨i, h⟩).event_id.id = g.start_event_count + i := by
  have h2 : (List.map (fun inst => inst.event_id.id) g.events)[i]? =
      some (g.start_event_count + i) := by
    rw [hg]
    have := List.getElem?_range' g.start_event_count 1 h
    simpa using this
  rw [List.getElem?_map, List.getElem?_eq_getElem h] at h2
  simpa using h2

/-- Characterization of `get_event` on well-formed buffers. -/
theorem get_event_wf {E : Type} {s : Events E} (h : WF s) (id : Nat) :
    ((s.get_event id).map Prod.snd = some ⟨id⟩ ↔
      s.oldest_event_count ≤ id ∧ id < s.event_count) ∧
    ((id < s.oldest_event_count ∨ s.event_count ≤ id) → s.get_event id = none) := by
  obtain ⟨ha, hb, hab, hbc⟩ := h
  unfold EventSequence.len at hab hbc
  by_cases h1 : id < s.oldest_event_count
  · have hnone : s.get_event id = none := by
      unfold Events.get_event
      rw [if_pos h1]
    constructor
    · rw [hnone]; simp; omega
    · intro _; exact hnone
  · push_neg at h1
    unfold Events.oldest_event_count at h1
    have hget : s.get_event id =
        ((s.sequence id).events[id - (s.sequence id).start_event_count]?).map
          (fun inst => (inst.event, inst.event_id)) := by
      unfold Events.get_event
      rw [if_neg (by unfold Events.oldest_event_count; omega)]
    by_cases h2 : id < s.events_b.start_event_count
    · -- the older generation owns this ordinal, and it is in range
      have hseq : s.sequence id = s.events_a := by
        unfold Events.sequence; rw [if_pos h2]
      have hidx : id - s.events_a.start_event_count < s.events_a.events.length := by omega
      have hsome : s.events_a.events[id - s.events_a.start_event_count]? =
          some (s.events_a.events.get ⟨id - s.events_a.start_event_count, hidx⟩) :=
        List.getElem?_eq_getElem hidx
      have hid := seqWF_getElem ha (id - s.events_a.start_event_count) hidx
      have hused : (s.events_a.events.get
          ⟨id - s.events_a.start_event_count, hidx⟩).event_id = ⟨id⟩ := by
        have heta : (s.events_a.events.get
            ⟨id - s.events_a.start_event_count, hidx⟩).event_id =
            ⟨(s.events_a.events.get
              ⟨id - s.events_a.start_event_count, hidx⟩).event_id.id⟩ := rfl
        rw [heta, hid]
        have : s.events_a.start_event_count + (id - s.events_a.start_event_count) = id := by
          omega
        rw [this]
      constructor
      · rw [hget, hseq, hsome]
        unfold Events.oldest_event_count
        constructor
        · intro _
          exact ⟨h1, by omega⟩
        · intro _
          simp only [Option.map_some']
          rw [hused]
      · intro hout
        unfold Events.oldest_event_count at hout
        omega
    · push_neg at h2
      have hseq : s.sequence id = s.events_b := by
        unfold Events.sequence; rw [if_neg (by omega)]
      by_cases h3 : id < s.event_count
      · have hidx : id - s.events_b.start_event_count < s.events_b.events.length := by omega
        have hsome : s.events_b.events[id - s.events_b.start_event_count]? =
            some (s.events_b.events.get ⟨id - s.events_b.start_event_count, hidx⟩) :=
          List.getElem?_eq_getElem hidx
        have hid := seqWF_getElem hb (id - s.events_b.start_event_count) hidx
        have hused : (s.events_b.events.get
            ⟨id - s.events_b.start_event_count, hidx⟩).event_id = ⟨id⟩ := by
          have heta : (s.events_b.events.get
              ⟨id - s.events_b.start_event_count, hidx⟩).event_id =
              ⟨(s.events_b.events.get
                ⟨id - s.events_b.start_event_count, hidx⟩).event_id.id⟩ := rfl
          rw [heta, hid]
          have : s.events_b.start_event_count + (id - s.events_b.start_event_count) = id := by
            omega
          rw [this]
        constructor
        · rw [hget, hseq, hsome]
          unfold Events.oldest_event_count
          constructor
          · intro _
            exact ⟨h1, h3⟩
          · intro _
            simp only [Option.map_some']
            rw [hused]
        · intro hout
          unfold Events.oldest_event_count at hout
          omega
      · push_neg at h3
        have hnone : s.events_b.events[id - s.events_b.start_event_count]? = none := by
          apply List.getElem?_eq_none
          omega
        constructor
        · rw [hget, hseq, hnone]
          simp
          omega
        · intro _
          rw [hget, hseq, hnone]
          rfl

end BevyEvents

namespace BevyEvents

/-- Claim C1: starting from counter value `k = s.event_count`, writing `n`
events assigns ordinals `k, k+1, …, k+n-1` in write order and leaves the
counter at `k + n`, identically for `n` single `write` calls and for one
batched call. -/
theorem write_ordinal_assignment (E : Type) (s : Events E) (es : List E) :
    (writeList s es).2 = (List.range' s.event_count es.length).map EventId.mk ∧
    (writeList s es).1.event_count = s.event_count + es.length ∧
    (s.write_batch es).1.event_count = s.event_count + es.length ∧
    (s.write_batch es).1 = (writeList s es).1 := by
  refine ⟨writeList_ids s es, writeList_count s es, rfl, ?_⟩
  rw [writeList_state]; rfl

/-- Claim C2: after writing `a`, rotating twice, and then writing `b`, a
cursor that has not read since before the first rotation reads exactly the
record of `b` and never the (dropped) record of `a`. -/
theorem cursor_drop_law (E : Type) (s : Events E) (a b : E) (c : EventCursor)
    (h : c.last_event_count ≤ s.event_count + 1) :
    (c.read ((((s.write a).1.update).update.write b).1)).2 =
      [⟨⟨s.event_count + 1⟩, b⟩] ∧
    (⟨⟨s.event_count⟩, a⟩ : EventInstance E) ∉
      (c.read ((((s.write a).1.update).update.write b).1)).2 := by
  have hmax : max c.last_event_count (s.event_count + 1) = s.event_count + 1 :=
    Nat.max_eq_right h
  constructor
  · simp [EventCursor.read, Events.write, Events.update, Events.oldest_event_count, hmax]
  · simp [EventCursor.read, Events.write, Events.update, Events.oldest_event_count, hmax]

/-- Witness for C2: concretely, writing 10, rotating twice, and writing 20
leaves a never-read cursor observing only the record of 20. -/
theorem cursor_drop_law_witness :
    ((⟨0⟩ : EventCursor).read
        (((((Events.empty : Events Nat).write 10).1.update).update.write 20).1)).2 =
      [⟨⟨(Events.empty : Events Nat).event_count + 1⟩, 20⟩] ∧
    (⟨⟨(Events.empty : Events Nat).event_count⟩, 10⟩ : EventInstance Nat) ∉
      ((⟨0⟩ : EventCursor).read
        (((((Events.empty : Events Nat).write 10).1.update).update.write 20).1)).2 :=
  cursor_drop_law Nat Events.empty 10 20 ⟨0⟩ (by decide)

/-- Claim C3: on every reachable buffer state, `get_event id` returns a
payload paired with an `EventId` whose ordinal equals `id` exactly when
`oldest_event_count ≤ id < event_count`, and returns `none` for every id
outside that half-open range, including ids at or above `event_count`. -/
theorem get_event_range_spec (E : Type) (s : Events E) (h : Reachable s) (id : Nat) :
    ((s.get_event id).map Prod.snd = some ⟨id⟩ ↔
      s.oldest_event_count ≤ id ∧ id < s.event_count) ∧
    ((id < s.oldest_event_count ∨ s.event_count ≤ id) → s.get_event id = none) :=
  get_event_wf (reachable_wf h) id

/-- Witness for C3: in the one-write buffer, ordinal 0 is retrievable and the
range characterization holds. -/
theorem get_event_range_spec_witness :
    (((((Events.empty : Events Nat).write 7).1).get_event 0).map Prod.snd = some ⟨0⟩ ↔
      (((Events.empty : Events Nat).write 7).1).oldest_event_count ≤ 0 ∧
        0 < (((Events.empty : Events Nat).write 7).1).event_count) ∧
    ((0 < (((Events.empty : Events Nat).write 7).1).oldest_event_count ∨
        (((Events.empty : Events Nat).write 7).1).event_count ≤ 0) →
      (((Events.empty : Events Nat).write 7).1).get_event 0 = none) :=
  get_event_range_spec Nat ((Events.empty : Events Nat).write 7).1
    (Reachable.write Events.empty 7 Reachable.empty) 0

/-- Claim C4: `update` discards the older generation's contents, promotes the
newer generation to older unchanged, starts a fresh empty newer generation
with `start_event_count = event_count`, and leaves `event_count` unchanged. -/
theorem update_rotates_generations (E : Type) (s : Events E) :
    s.update.events_a = s.events_b ∧
    s.update.events_b = ⟨[], s.event_count⟩ ∧
    s.update.event_count = s.event_count :=
  ⟨rfl, rfl, rfl⟩

/-- Claim C5: `update_drain` leaves the buffer in exactly the state `update`
produces and returns the discarded older generation's payloads; on reachable
states those payloads are in ascending ordinal order (the stored ids form the
consecutive range starting at the older generation's `start_event_count`). -/
theorem update_drain_refines_update (E : Type) (s : Events E) (h : Reachable s) :
    (s.update_drain).1 = s.update ∧
    (s.update_drain).2 = s.events_a.events.map EventInstance.event ∧
    s.events_a.events.map (fun inst => inst.event_id.id) =
      List.range' s.events_a.start_event_count s.events_a.events.length :=
  ⟨rfl, rfl, (reachable_wf h).1⟩

/-- Witness for C5 at a buffer holding one event in its older generation. -/
theorem update_drain_refines_update_witness :
    (((((Events.empty : Events Nat).write 3).1.update)).update_drain).1 =
      ((((Events.empty : Events Nat).write 3).1.update)).update ∧
    (((((Events.empty : Events Nat).write 3).1.update)).update_drain).2 =
      ((((Events.empty : Events Nat).write 3).1.update)).events_a.events.map
        EventInstance.event ∧
    ((((Events.empty : Events Nat).write 3).1.update)).events_a.events.map
        (fun inst => inst.event_id.id) =
      List.range'
        ((((Events.empty : Events Nat).write 3).1.update)).events_a.start_event_count
        ((((Events.empty : Events Nat).write 3).1.update)).events_a.events.length :=
  update_drain_refines_update Nat (((Events.empty : Events Nat).write 3).1.update)
    (Reachable.update ((Events.empty : Events Nat).write 3).1
      (Reachable.write Events.empty 3 Reachable.empty))

/-- Claim C6: `write_batch` leaves the buffer exactly as the corresponding
loop of single `write` calls does, and the returned ticket yields exactly the
assigned ids in order, finitely, with its `ExactSizeIterator` length equal to
the number of written events before any consumption. -/
theorem write_batch_equiv_write_loop (E : Type) (s : Events E) (es : List E) :
    (s.write_batch es).1 = (writeList s es).1 ∧
    (s.write_batch es).2.toList = (writeList s es).2 ∧
    (s.write_batch es).2.toList.length = es.length ∧
    (s.write_batch es).2.len = es.length := by
  refine ⟨?_, ?_, ?_, ?_⟩
  · rw [writeList_state]; rfl
  · show (Events.WriteBatchIds.mk s.event_count (s.event_count + es.length)).toList = _
    rw [toList_mk_add, writeList_ids]
  · show (Events.WriteBatchIds.mk s.event_count (s.event_count + es.length)).toList.length
      = es.length
    rw [toList_mk_add]
    simp [List.length_range']
  · show s.event_count + es.length - s.event_count = es.length
    omega

/-- Claim C7: `clear` empties both generations and sets both start counts to
the current `event_count` (which itself is unchanged); a `write` after the
clear is assigned ordinal `event_count`, strictly above any ordinal `j`
issued before the clear (all of which satisfy `j < event_count`). -/
theorem clear_never_reuses_ordinals (E : Type) (s : Events E) (e : E) (j : Nat)
    (h : j < s.event_count) :
    s.clear.events_a = ⟨[], s.event_count⟩ ∧
    s.clear.events_b = ⟨[], s.event_count⟩ ∧
    s.clear.event_count = s.event_count ∧
    ((s.clear.write e).2).id = s.event_count ∧
    j < ((s.clear.write e).2).id :=
  ⟨rfl, rfl, rfl, rfl, h⟩

/-- Witness for C7 at a buffer with one issued ordinal. -/
theorem clear_never_reuses_ordinals_witness :
    (((Events.empty : Events Nat).write 4).1).clear.events_a =
      ⟨[], (((Events.empty : Events Nat).write 4).1).event_count⟩ ∧
    (((Events.empty : Events Nat).write 4).1).clear.events_b =
      ⟨[], (((Events.empty : Events Nat).write 4).1).event_count⟩ ∧
    (((Events.empty : Events Nat).write 4).1).clear.event_count =
      (((Events.empty : Events Nat).write 4).1).event_count ∧
    ((((((Events.empty : Events Nat).write 4).1).clear.write 9)).2).id =
      (((Events.empty : Events Nat).write 4).1).event_count ∧
    0 < ((((((Events.empty : Events Nat).write 4).1).clear.write 9)).2).id :=
  clear_never_reuses_ordinals Nat ((Events.empty : Events Nat).write 4).1 9 0 (by decide)

/-- Claim C8: every reachable state keeps the generations contiguous
(`a.start + a.len = b.start`) and the counter at the end of the newer
generation (`b.start + b.len = event_count`, hence always `≤ event_count`). -/
theorem reachable_generation_invariant (E : Type) (s : Events E) (h : Reachable s) :
    s.events_a.start_event_count + s.events_a.len = s.events_b.start_event_count ∧
    s.events_b.start_event_count + s.events_b.len = s.event_count ∧
    s.events_b.start_event_count + s.events_b.len ≤ s.event_count := by
  obtain ⟨_, _, hab, hbc⟩ := reachable_wf h
  exact ⟨hab, hbc, le_of_eq hbc⟩

/-- Witness for C8 after a write and a rotation. -/
theorem reachable_generation_invariant_witness :
    ((((Events.empty : Events Nat).write 6).1.update)).events_a.start_event_count +
        ((((Events.empty : Events Nat).write 6).1.update)).events_a.len =
      ((((Events.empty : Events Nat).write 6).1.update)).events_b.start_event_count ∧
    ((((Events.empty : Events Nat).write 6).1.update)).events_b.start_event_count +
        ((((Events.empty : Events Nat).write 6).1.update)).events_b.len =
      ((((Events.empty : Events Nat).write 6).1.update)).event_count ∧
    ((((Events.empty : Events Nat).write 6).1.update)).events_b.start_event_count +
        ((((Events.empty : Events Nat).write 6).1.update)).events_b.len ≤
      ((((Events.empty : Events Nat).write 6).1.update)).event_count :=
  reachable_generation_invariant Nat (((Events.empty : Events Nat).write 6).1.update)
    (Reachable.update ((Events.empty : Events Nat).write 6).1
      (Reachable.write Events.empty 6 Reachable.empty))

/-- Claim C9: writing `n` events into a fresh buffer with no rotation gives
`len = n`, and in every state `is_empty` holds exactly when `len = 0`, where
`len` is the sum of the two generations' lengths. -/
theorem len_counts_writes_and_is_empty (E : Type) (s : Events E) (es : List E) :
    ((writeList (Events.empty : Events E) es).1).len = es.length ∧
    (s.is_empty = true ↔ s.len = 0) ∧
    s.len = s.events_a.len + s.events_b.len := by
  refine ⟨?_, ?_, rfl⟩
  · rw [writeList_state]
    simp [Events.len, EventSequence.len, Events.extendEvents, Events.empty,
      extendInstances_length]
  · simp [Events.is_empty]

/-- Claim C10: `write` and `write_batch` leave the older generation (records
and start count) and the newer generation's start count untouched; only the
newer generation's records and the global counter change. -/
theorem write_frame_effect (E : Type) (s : Events E) (e : E) (es : List E) :
    ((s.write e).1).events_a = s.events_a ∧
    ((s.write e).1).events_b.start_event_count = s.events_b.start_event_count ∧
    ((s.write_batch es).1).events_a = s.events_a ∧
    ((s.write_batch es).1).events_b.start_event_count = s.events_b.start_event_count :=
  ⟨rfl, rfl, rfl, rfl⟩

end BevyEvents
